import Mathlib

/-!
TinyNumberBot: the nearest-reference evaluator.

A shallow embedding of the numeric core of the two browser scripts of the
repository:

* `src/JS/script.js`            (namespace `TinyNumberBot.JS`): `confidenceRatio`,
  `confidenceExp`, `generateDataVerifiedId`, `compute`, and the options record
  built by `handleSend`;
* `src/Java Scripts/script.js`  (namespace `TinyNumberBot.JavaScripts`):
  `computeClosest`.

Modelling conventions.

* A JavaScript number is an element of a linearly ordered field `K` with a floor
  function (`ℚ` for evaluation, `ℝ` when `Math.exp` is the real exponential);
  the query and the references are finite numbers, `NaN` is not a value of `K`.
* The subtraction `value - r` of the distance computation returns a double: the
  functions `computeWith` and `computeClosestWith` take the rounding `fl` of the
  exact difference as a parameter, `toDouble` is the rounding of IEEE 754
  binary64, and `compute` and `computeClosest` are the instances in exact
  arithmetic (`fl` the identity), which agree with the instances at `toDouble`
  whenever every difference `value - r` is a double. The sort looks at the sign
  of the comparator only, and the difference of two doubles has the sign of the
  exact difference.
* The arithmetic of the confidence formulas is exact; the double arithmetic of
  the code can round the other way when the exact value is at a tie of
  `Math.round` (`confidenceRatio(17, 23)` is 57 in the code and 58 here).
* `Math.exp` and `Math.random` are supplied by the host, so they are parameters:
  `mexp : K → K`, and `rand : Nat → K`, the value of the `i`-th call of
  `Math.random()` made by one evaluation.
* A property that may be absent from a JavaScript object is an `Option` field;
  `none` is `undefined`.
* `Array.prototype.sort` is a stable sort (ECMAScript 2019); it is modelled by a
  stable insertion sort driven by the comparator of the source.
-/

namespace TinyNumberBot

variable {K : Type} [LinearOrderedField K]

/-! ## Host functions -/

/-- The number `Number.EPSILON`, two to the power minus 52. -/
def EPSILON : K := 1 / 2 ^ 52

/-- The function `Math.round`: the nearest integer, a tie going up. -/
def jsRound [FloorRing K] (x : K) : Int := ⌊x + 1 / 2⌋

/-- The integer nearest to `x`, a tie going to the even one. -/
def roundHalfEven [FloorRing K] (x : K) : Int :=
  if x - ⌊x⌋ < 1 / 2 then ⌊x⌋
  else if 1 / 2 < x - ⌊x⌋ then ⌊x⌋ + 1
  else if ⌊x⌋ % 2 = 0 then ⌊x⌋ else ⌊x⌋ + 1

/-- The double that an operation of exact result `x` returns (IEEE 754 binary64,
round to nearest, ties to even): 53 significant bits, the exponent not below
`-1022` (gradual underflow). A result that rounds past the largest double is an
infinity; `2 ^ 1024` stands for `Infinity` and `-2 ^ 1024` for `-Infinity`. -/
def toDouble [FloorRing K] (x : K) : K :=
  if x = 0 then 0
  else
    let e : Int := max (Int.log 2 |x|) (-1022)
    let ulp : K := 2 ^ (e - 52)
    let y : K := roundHalfEven (x / ulp) * ulp
    if 2 ^ 1024 ≤ y then 2 ^ 1024 else if y ≤ -2 ^ 1024 then -2 ^ 1024 else y

/-- The expression `x || d` for a numeric `x`: `d` replaces a missing value
(`undefined`, `NaN`: `none`) and zero, every other number is kept. -/
def jsOr (x : Option K) (d : K) : K :=
  match x with
  | none => d
  | some v => if v = 0 then d else v

/-- Insertion of `x` in front of the first element it does not follow under the
comparator `cmp` (`cmp x y ≤ 0`: `x` is not after `y`). -/
def insertBy {α : Type} (cmp : α → α → K) (x : α) : List α → List α
  | [] => [x]
  | y :: ys => if cmp x y ≤ 0 then x :: y :: ys else y :: insertBy cmp x ys

/-- The method `Array.prototype.sort(cmp)`: a stable sort by the comparator. -/
def jsSort {α : Type} (cmp : α → α → K) : List α → List α
  | [] => []
  | x :: xs => insertBy cmp x (jsSort cmp xs)

/-- The call `Math.min(r0, ...rs)` on at least one argument. -/
def mathMin (r0 : K) (rs : List K) : K := rs.foldl min r0

/-- The call `Math.max(r0, ...rs)` on at least one argument. -/
def mathMax (r0 : K) (rs : List K) : K := rs.foldl max r0

/-- The method `refs.indexOf(x)`: the first position of `x`, or `-1`. -/
def jsIndexOf (refs : List K) (x : K) : Int :=
  if x ∈ refs then (refs.indexOf x : Int) else -1

/-- One element of the array `dists`: `{ref: r, dist: Math.abs(value - r)}`. -/
structure Dist (K : Type) where
  ref : K
  dist : K
  deriving DecidableEq

/-- The array `refs.map(r => ({ref: r, dist: Math.abs(value - r)}))`; `fl` takes
the exact difference to the number that the subtraction returns. -/
def distsOf (fl : K → K) (value : K) (refs : List K) : List (Dist K) :=
  refs.map fun r => ⟨r, |fl (value - r)|⟩

/-- The comparator `(a, b) => a.dist - b.dist`. -/
def byDist (a b : Dist K) : K := a.dist - b.dist

/-! ## `src/JS/script.js` -/

namespace JS

/-- The constant `LETTERS`. -/
def LETTERS : List String := ["L", "P", "K", "M", "N", "O"]

/-- The element `LETTERS[i]`; out of range it is `undefined`, which the string
concatenation prints. -/
def letterAt (i : Int) : String :=
  if 0 ≤ i then LETTERS.getD i.toNat "undefined" else "undefined"

/-- The inner `randNum(n)`, its calls of `Math.random()` numbered from `start`. -/
def randNum [FloorRing K] (rand : Nat → K) (start n : Nat) : String :=
  (List.range n).foldl (fun s i => s ++ toString ⌊rand (start + i) * 10⌋) ""

/-- The inner `randLetters(n)`, its calls of `Math.random()` numbered from
`start`. -/
def randLetters [FloorRing K] (rand : Nat → K) (start n : Nat) : String :=
  (List.range n).foldl
    (fun s i => s ++ letterAt ⌊rand (start + i) * (LETTERS.length : K)⌋) ""

/-- The function `generateDataVerifiedId`: ten calls of `Math.random()`. -/
def generateDataVerifiedId [FloorRing K] (rand : Nat → K) : String :=
  randNum rand 0 4 ++ "-" ++ randLetters rand 4 2 ++ "-" ++ randNum rand 6 4

/-- The function `confidenceRatio(dmin, dsec)`; `dsec` is `null` as `none`. -/
def confidenceRatio [FloorRing K] (dmin : K) (dsec : Option K) : Int :=
  match dsec with
  | none => 100
  | some ds =>
    if dmin = 0 ∧ ds = 0 then 50
    else jsRound (max 0 (min 1 (1 - dmin / (dmin + ds + EPSILON))) * 100)

/-- The function `confidenceExp(dmin, scale)`. -/
def confidenceExp [FloorRing K] (mexp : K → K) (dmin : K) (scale : Option K) : Int :=
  jsRound (mexp (-(dmin / jsOr scale 1)) * 100)

/-- The argument `options` of `compute`. -/
structure Options (K : Type) where
  mode : String
  conf : String
  scale : Option K

/-- One element of the property `rank`: `{v: d.ref, distance: d.dist}`. -/
structure RankEntry (K : Type) where
  v : K
  distance : K
  deriving DecidableEq

/-- The property `region`, a text made of `min` and `max`; the two numbers stand
for it (the printing of a number is not modelled). -/
structure Region (K : Type) where
  min : K
  max : K
  deriving DecidableEq

/-- The object returned by `compute`. -/
structure Result (K : Type) where
  error : Option String := none
  closest : Option K := none
  distance : Option K := none
  rank : Option (List (RankEntry K)) := none
  region : Option (Region K) := none
  confidence : Option Int := none
  dv : Option String := none
  deriving DecidableEq

/-- The function `compute(value, refs, options)`, the differences `value - r`
rounded by `fl`. The result `none` stands for `undefined`, returned when no
branch on `options.mode` is taken. -/
def computeWith [FloorRing K] (fl : K → K) (mexp : K → K) (rand : Nat → K) (value : K)
    (refs : List K) (options : Options K) : Option (Result K) :=
  match refs with
  | [] => some { error := some "No reference numbers provided." }
  | r0 :: rs =>
    let dists := jsSort byDist (distsOf fl value (r0 :: rs))
    match dists with
    | [] => none
    | best :: rest =>
      let second : Option (Dist K) := rest.head?
      let confidence : Int :=
        if options.conf = "exp" then confidenceExp mexp best.dist options.scale
        else confidenceRatio best.dist (second.map fun s => s.dist)
      if options.mode = "closest" then
        some { closest := some best.ref, distance := some best.dist,
               confidence := some confidence,
               dv := some (generateDataVerifiedId rand) }
      else if options.mode = "rank" then
        some { rank := some (dists.map fun d => ⟨d.ref, d.dist⟩),
               confidence := some confidence,
               dv := some (generateDataVerifiedId rand) }
      else if options.mode = "range" then
        some { closest := some best.ref, distance := some best.dist,
               region := some ⟨mathMin r0 rs, mathMax r0 rs⟩,
               confidence := some confidence,
               dv := some (generateDataVerifiedId rand) }
      else none

/-- The function `compute(value, refs, options)` in exact arithmetic: no
difference `value - r` is rounded. -/
def compute [FloorRing K] (mexp : K → K) (rand : Nat → K) (value : K) (refs : List K)
    (options : Options K) : Option (Result K) :=
  computeWith id mexp rand value refs options

/-- The record `opts` built by `handleSend`; `scaleField` is
`Number(scaleInput.value)`, `none` when it is `NaN`. -/
def handleSendOpts (mode conf : String) (scaleField : Option K) : Options K :=
  { mode := mode, conf := conf, scale := some (jsOr scaleField 10) }

end JS

/-! ## `src/Java Scripts/script.js` -/

namespace JavaScripts

/-- The object returned by `computeClosest`. -/
structure Result (K : Type) where
  error : Option String := none
  closest : Option K := none
  distance : Option K := none
  confidence : Option Int := none
  bestIndex : Option Int := none
  deriving DecidableEq

/-- The function `computeClosest(value, refs)`, the differences `value - r`
rounded by `fl`. -/
def computeClosestWith [FloorRing K] (fl : K → K) (value : K) (refs : List K) :
    Option (Result K) :=
  match refs with
  | [] => some { error := some "No valid reference numbers provided." }
  | r0 :: rs =>
    let dists := jsSort byDist (distsOf fl value (r0 :: rs))
    match dists with
    | [] => none
    | best :: rest =>
      let confidence : Int :=
        match rest.head? with
        | some second =>
          let dmin := best.dist
          let dsec := second.dist
          let confRaw := 1 - dmin / (dmin + dsec + EPSILON)
          jsRound (max 0 (min 1 confRaw) * 100)
        | none => 100
      some { closest := some best.ref, distance := some best.dist,
             confidence := some confidence,
             bestIndex := some (jsIndexOf (r0 :: rs) best.ref) }

/-- The function `computeClosest(value, refs)` in exact arithmetic: no
difference `value - r` is rounded. -/
def computeClosest [FloorRing K] (value : K) (refs : List K) : Option (Result K) :=
  computeClosestWith id value refs

end JavaScripts

/-! ## The sorted array of distances -/

theorem insertBy_perm {α : Type} (cmp : α → α → K) (x : α) (l : List α) :
    (insertBy cmp x l).Perm (x :: l) := by
  induction l with
  | nil => exact List.Perm.refl _
  | cons y ys ih =>
    unfold insertBy
    split_ifs with h
    · exact List.Perm.refl _
    · exact (List.Perm.cons y ih).trans (List.Perm.swap x y ys)

theorem jsSort_perm {α : Type} (cmp : α → α → K) (l : List α) :
    (jsSort cmp l).Perm l := by
  induction l with
  | nil => exact List.Perm.refl _
  | cons x xs ih =>
    exact (insertBy_perm cmp x (jsSort cmp xs)).trans (List.Perm.cons x ih)

theorem insertBy_pairwise (x : Dist K) (l : List (Dist K))
    (hl : l.Pairwise fun a b => a.dist ≤ b.dist) :
    (insertBy byDist x l).Pairwise fun a b => a.dist ≤ b.dist := by
  induction l with
  | nil => simp [insertBy]
  | cons y ys ih =>
    have hy := List.pairwise_cons.mp hl
    unfold insertBy
    split_ifs with h
    · have hxy : x.dist ≤ y.dist := by simpa [byDist] using h
      refine List.pairwise_cons.mpr ⟨?_, hl⟩
      intro b hb
      rcases List.mem_cons.mp hb with rfl | hb
      · exact hxy
      · exact hxy.trans (hy.1 b hb)
    · have hyx : y.dist ≤ x.dist := by
        have : ¬ x.dist ≤ y.dist := by simpa [byDist] using h
        exact le_of_lt (not_le.mp this)
      refine List.pairwise_cons.mpr ⟨?_, ih hy.2⟩
      intro b hb
      rcases List.mem_cons.mp ((insertBy_perm byDist x ys).subset hb) with rfl | hb
      · exact hyx
      · exact hy.1 b hb

theorem jsSort_pairwise (l : List (Dist K)) :
    (jsSort byDist l).Pairwise fun a b => a.dist ≤ b.dist := by
  induction l with
  | nil => simp [jsSort]
  | cons x xs ih => exact insertBy_pairwise x _ ih

theorem insertBy_filter (d : K) (x : Dist K) (l : List (Dist K)) :
    (insertBy byDist x l).filter (fun e => decide (e.dist = d))
      = (x :: l).filter (fun e => decide (e.dist = d)) := by
  induction l with
  | nil => simp [insertBy]
  | cons y ys ih =>
    unfold insertBy
    split_ifs with h
    · rfl
    · have hyx : y.dist < x.dist := by
        have : ¬ x.dist ≤ y.dist := by simpa [byDist] using h
        exact not_le.mp this
      by_cases hyd : y.dist = d
      · have hxd : x.dist ≠ d := by
          intro hx
          rw [hx, hyd] at hyx
          exact lt_irrefl _ hyx
        rw [List.filter_cons_of_pos (by simpa using hyd), ih,
          List.filter_cons_of_neg (by simpa using hxd),
          List.filter_cons_of_neg (by simpa using hxd),
          List.filter_cons_of_pos (by simpa using hyd)]
      · rw [List.filter_cons_of_neg (by simpa using hyd), ih]
        by_cases hxd : x.dist = d
        · rw [List.filter_cons_of_pos (by simpa using hxd),
            List.filter_cons_of_pos (by simpa using hxd),
            List.filter_cons_of_neg (by simpa using hyd)]
        · rw [List.filter_cons_of_neg (by simpa using hxd),
            List.filter_cons_of_neg (by simpa using hxd),
            List.filter_cons_of_neg (by simpa using hyd)]

theorem jsSort_filter (d : K) (l : List (Dist K)) :
    (jsSort byDist l).filter (fun e => decide (e.dist = d))
      = l.filter (fun e => decide (e.dist = d)) := by
  induction l with
  | nil => rfl
  | cons x xs ih =>
    show (insertBy byDist x (jsSort byDist xs)).filter _ = _
    rw [insertBy_filter, List.filter_cons, List.filter_cons, ih]

theorem jsSort_dists_head (fl : K → K) (value : K) (refs : List K) (h : refs ≠ []) :
    ∃ pre c post rest, refs = pre ++ c :: post ∧
      jsSort byDist (distsOf fl value refs) = ⟨c, |fl (value - c)|⟩ :: rest ∧
      (∀ r ∈ pre, |fl (value - c)| < |fl (value - r)|) ∧
      (∀ r ∈ post, |fl (value - c)| ≤ |fl (value - r)|) := by
  induction refs with
  | nil => exact absurd rfl h
  | cons x xs ih =>
    cases xs with
    | nil => exact ⟨[], x, [], [], rfl, rfl, by simp, by simp⟩
    | cons y ys =>
      obtain ⟨pre, c, post, rest, hsplit, hsort, hpre, hpost⟩ := ih (by simp)
      have hstep : jsSort byDist (distsOf fl value (x :: y :: ys))
          = insertBy byDist ⟨x, |fl (value - x)|⟩ (⟨c, |fl (value - c)|⟩ :: rest) := by
        show insertBy byDist _ (jsSort byDist (distsOf fl value (y :: ys))) = _
        rw [hsort]
      by_cases hx : |fl (value - x)| ≤ |fl (value - c)|
      · refine ⟨[], x, y :: ys, ⟨c, |fl (value - c)|⟩ :: rest, rfl, ?_, by simp, ?_⟩
        · rw [hstep]
          simp [insertBy, byDist, hx]
        · intro r hr
          rw [hsplit] at hr
          rcases List.mem_append.mp hr with hr | hr
          · exact hx.trans (le_of_lt (hpre r hr))
          · rcases List.mem_cons.mp hr with rfl | hr
            · exact hx
            · exact hx.trans (hpost r hr)
      · refine ⟨x :: pre, c, post, insertBy byDist ⟨x, |fl (value - x)|⟩ rest, ?_, ?_, ?_, hpost⟩
        · rw [hsplit]; rfl
        · rw [hstep]
          simp [insertBy, byDist, hx]
        · intro r hr
          rcases List.mem_cons.mp hr with rfl | hr
          · exact not_le.mp hx
          · exact hpre r hr

theorem jsSort_ne_nil {α : Type} (cmp : α → α → K) (x : α) (xs : List α) :
    ∃ best rest, jsSort cmp (x :: xs) = best :: rest := by
  have hlen := (jsSort_perm cmp (x :: xs)).length_eq
  cases h : jsSort cmp (x :: xs) with
  | nil => rw [h] at hlen; simp at hlen
  | cons b r => exact ⟨b, r, rfl⟩

/-- When at least two references are at distance zero, the two first elements
of the sorted array have distance zero. -/
theorem jsSort_two_zero (fl : K → K) (value : K) (refs : List K)
    (hzero : 2 ≤ refs.countP (fun r => decide (|fl (value - r)| = 0))) :
    ∃ a b rest, jsSort byDist (distsOf fl value refs) = a :: b :: rest ∧
      a.dist = 0 ∧ b.dist = 0 := by
  have hcount : (jsSort byDist (distsOf fl value refs)).countP (fun e => decide (e.dist = 0))
      = refs.countP (fun r => decide (|fl (value - r)| = 0)) := by
    rw [List.countP_eq_length_filter, jsSort_filter, ← List.countP_eq_length_filter,
      distsOf, List.countP_map]
    rfl
  have hnonneg : ∀ e ∈ jsSort byDist (distsOf fl value refs), 0 ≤ e.dist := by
    intro e he
    have he2 := (jsSort_perm byDist _).subset he
    obtain ⟨r, -, rfl⟩ := List.mem_map.mp he2
    exact abs_nonneg _
  have hsorted := jsSort_pairwise (distsOf fl value refs)
  rw [← hcount] at hzero
  cases hS : jsSort byDist (distsOf fl value refs) with
  | nil => rw [hS] at hzero; simp at hzero
  | cons a t =>
    cases t with
    | nil =>
      rw [hS] at hzero
      have hle : List.countP (fun e : Dist K => decide (e.dist = 0)) [a] ≤ [a].length :=
        List.countP_le_length _
      simp only [List.length_singleton] at hle
      omega
    | cons b rest =>
      rw [hS] at hzero hsorted hnonneg
      have hab := List.pairwise_cons.mp hsorted
      have hb := List.pairwise_cons.mp hab.2
      have hb0 : b.dist = 0 := by
        by_contra hne
        have hbpos : 0 < b.dist := lt_of_le_of_ne (hnonneg b (by simp)) (Ne.symm hne)
        have hrest : (b :: rest).countP (fun e => decide (e.dist = 0)) = 0 := by
          rw [List.countP_eq_zero]
          intro e he
          have hle : b.dist ≤ e.dist := by
            rcases List.mem_cons.mp he with rfl | he
            · exact le_refl _
            · exact hb.1 e he
          have : e.dist ≠ 0 := ne_of_gt (lt_of_lt_of_le hbpos hle)
          simpa using this
        rw [List.countP_cons, hrest] at hzero
        split_ifs at hzero <;> omega
      refine ⟨a, b, rest, rfl, ?_, hb0⟩
      exact le_antisymm (hb0 ▸ hab.1 b (by simp)) (hnonneg a (by simp))

/-! ## Minimum and maximum of the references -/

theorem mathMin_le (r0 : K) (rs : List K) :
    mathMin r0 rs ≤ r0 ∧ ∀ r ∈ rs, mathMin r0 rs ≤ r := by
  induction rs generalizing r0 with
  | nil => simp [mathMin]
  | cons x xs ih =>
    have h := ih (min r0 x)
    have e : mathMin r0 (x :: xs) = mathMin (min r0 x) xs := rfl
    rw [e]
    refine ⟨h.1.trans (min_le_left _ _), ?_⟩
    intro r hr
    rcases List.mem_cons.mp hr with rfl | hr
    · exact h.1.trans (min_le_right _ _)
    · exact h.2 r hr

theorem mathMin_mem (r0 : K) (rs : List K) : mathMin r0 rs ∈ r0 :: rs := by
  induction rs generalizing r0 with
  | nil => simp [mathMin]
  | cons x xs ih =>
    have h := ih (min r0 x)
    have e : mathMin r0 (x :: xs) = mathMin (min r0 x) xs := rfl
    rw [e]
    rcases List.mem_cons.mp h with h | h
    · rw [h]
      rcases min_choice r0 x with hm | hm
      · rw [hm]; simp
      · rw [hm]; simp
    · exact List.mem_cons_of_mem _ (List.mem_cons_of_mem _ h)

theorem le_mathMax (r0 : K) (rs : List K) :
    r0 ≤ mathMax r0 rs ∧ ∀ r ∈ rs, r ≤ mathMax r0 rs := by
  induction rs generalizing r0 with
  | nil => simp [mathMax]
  | cons x xs ih =>
    have h := ih (max r0 x)
    have e : mathMax r0 (x :: xs) = mathMax (max r0 x) xs := rfl
    rw [e]
    refine ⟨(le_max_left _ _).trans h.1, ?_⟩
    intro r hr
    rcases List.mem_cons.mp hr with rfl | hr
    · exact (le_max_right _ _).trans h.1
    · exact h.2 r hr

theorem mathMax_mem (r0 : K) (rs : List K) : mathMax r0 rs ∈ r0 :: rs := by
  induction rs generalizing r0 with
  | nil => simp [mathMax]
  | cons x xs ih =>
    have h := ih (max r0 x)
    have e : mathMax r0 (x :: xs) = mathMax (max r0 x) xs := rfl
    rw [e]
    rcases List.mem_cons.mp h with h | h
    · rw [h]
      rcases max_choice r0 x with hm | hm
      · rw [hm]; simp
      · rw [hm]; simp
    · exact List.mem_cons_of_mem _ (List.mem_cons_of_mem _ h)

/-- The least element of a list is determined by its members. -/
theorem mathMin_congr (r0 : K) (rs : List K) (s0 : K) (ss : List K)
    (h : ∀ x, x ∈ r0 :: rs ↔ x ∈ s0 :: ss) : mathMin r0 rs = mathMin s0 ss := by
  have lower : ∀ (a : K) (as : List K), ∀ x ∈ a :: as, mathMin a as ≤ x := by
    intro a as x hx
    rcases List.mem_cons.mp hx with rfl | hx
    · exact (mathMin_le _ as).1
    · exact (mathMin_le a as).2 x hx
  exact le_antisymm (lower r0 rs _ ((h _).mpr (mathMin_mem s0 ss)))
    (lower s0 ss _ ((h _).mp (mathMin_mem r0 rs)))

theorem mathMax_congr (r0 : K) (rs : List K) (s0 : K) (ss : List K)
    (h : ∀ x, x ∈ r0 :: rs ↔ x ∈ s0 :: ss) : mathMax r0 rs = mathMax s0 ss := by
  have upper : ∀ (a : K) (as : List K), ∀ x ∈ a :: as, x ≤ mathMax a as := by
    intro a as x hx
    rcases List.mem_cons.mp hx with rfl | hx
    · exact (le_mathMax _ as).1
    · exact (le_mathMax a as).2 x hx
  exact le_antisymm (upper s0 ss _ ((h _).mp (mathMax_mem r0 rs)))
    (upper r0 rs _ ((h _).mpr (mathMax_mem s0 ss)))

/-- The region reported in range mode, for a non-empty list. -/
theorem compute_range_region [FloorRing K] (mexp : K → K) (rand : Nat → K) (value : K)
    (r0 : K) (rs : List K) (options : JS.Options K) (hmode : options.mode = "range") :
    ∃ res, JS.compute mexp rand value (r0 :: rs) options = some res ∧
      res.region = some ⟨mathMin r0 rs, mathMax r0 rs⟩ := by
  obtain ⟨best, rest, hsort⟩ := jsSort_ne_nil byDist
    (⟨r0, |value - r0|⟩ : Dist K) (distsOf id value rs)
  have hsort2 : jsSort byDist (distsOf id value (r0 :: rs)) = best :: rest := hsort
  simp only [JS.compute, JS.computeWith, hsort2, hmode]
  exact ⟨_, rfl, rfl⟩

/-! ## Rounding and the exponential -/

theorem jsRound_mono [FloorRing K] {x y : K} (h : x ≤ y) : jsRound x ≤ jsRound y :=
  Int.floor_mono (add_le_add_right h _)

theorem jsRound_eq_iff [FloorRing K] (x : K) (n : Int) :
    jsRound x = n ↔ (n : K) - 1 / 2 ≤ x ∧ x < n + 1 / 2 := by
  unfold jsRound
  rw [Int.floor_eq_iff]
  constructor
  · rintro ⟨h1, h2⟩
    exact ⟨by linarith, by linarith⟩
  · rintro ⟨h1, h2⟩
    exact ⟨by linarith, by linarith⟩

theorem exp_one_bounds : (2.715 : ℝ) ≤ Real.exp 1 ∧ Real.exp 1 < 2.72 := by
  have h1 := Real.exp_one_gt_d9
  have h2 := Real.exp_one_lt_d9
  constructor
  · norm_num at h1 ⊢; linarith
  · norm_num at h2 ⊢; linarith

theorem exp_neg_one_bounds : (0.366 : ℝ) ≤ Real.exp (-1) ∧ Real.exp (-1) < 0.37 := by
  obtain ⟨h1, h2⟩ := exp_one_bounds
  have hpos : 0 < Real.exp 1 := Real.exp_pos 1
  rw [Real.exp_neg]
  constructor
  · rw [le_inv_comm₀ (by norm_num) hpos]
    norm_num at h2 ⊢
    linarith
  · rw [inv_lt_comm₀ hpos (by norm_num)]
    norm_num at h1 ⊢
    linarith

theorem exp_neg_ten_lt : Real.exp (-10) < (0.001 : ℝ) := by
  have h2 : (2 : ℝ) < Real.exp 1 := by linarith [exp_one_bounds.1]
  have h10 : Real.exp 10 = Real.exp 1 ^ 10 := by
    rw [← Real.exp_nat_mul]; norm_num
  have hbig : (1000 : ℝ) < Real.exp 10 := by
    rw [h10]
    calc (1000 : ℝ) < 2 ^ 10 := by norm_num
      _ ≤ Real.exp 1 ^ 10 := pow_le_pow_left₀ (by norm_num) (le_of_lt h2) 10
  rw [Real.exp_neg, inv_lt_comm₀ (Real.exp_pos 10) (by norm_num)]
  norm_num
  linarith

/-- The confidence returned under the exp formula is `confidenceExp` at the
least distance and the scale of the options. -/
theorem compute_exp_confidence [FloorRing K] (mexp : K → K) (rand : Nat → K) (value : K)
    (r0 : K) (rs : List K) (options : JS.Options K) (hconf : options.conf = "exp")
    (hmode : options.mode = "closest" ∨ options.mode = "rank" ∨ options.mode = "range") :
    ∃ c res, c ∈ r0 :: rs ∧ (∀ r ∈ r0 :: rs, |value - c| ≤ |value - r|) ∧
      JS.compute mexp rand value (r0 :: rs) options = some res ∧
      res.confidence = some (JS.confidenceExp mexp |value - c| options.scale) := by
  obtain ⟨pre, c, post, rest, hsplit, hsort, hpre, hpost⟩ :=
    jsSort_dists_head id value (r0 :: rs) (by simp)
  have hmem : c ∈ r0 :: rs := by rw [hsplit]; simp
  have hmin : ∀ r ∈ r0 :: rs, |value - c| ≤ |value - r| := by
    intro r hr
    rw [hsplit] at hr
    rcases List.mem_append.mp hr with hr | hr
    · exact le_of_lt (hpre r hr)
    · rcases List.mem_cons.mp hr with rfl | hr
      · exact le_refl _
      · exact hpost r hr
  refine ⟨c, ?_⟩
  rcases hmode with h | h | h
  · simp only [JS.compute, JS.computeWith, hsort, hconf, h, if_true]
    exact ⟨_, hmem, hmin, rfl, rfl⟩
  · simp only [JS.compute, JS.computeWith, hsort, hconf, h, if_true]
    exact ⟨_, hmem, hmin, rfl, rfl⟩
  · simp only [JS.compute, JS.computeWith, hsort, hconf, h, if_true]
    exact ⟨_, hmem, hmin, rfl, rfl⟩

/-- The ratio confidence is between 0 and 100. -/
theorem confidenceRatio_bounds [FloorRing K] (dmin : K) (dsec : Option K) :
    0 ≤ JS.confidenceRatio dmin dsec ∧ JS.confidenceRatio dmin dsec ≤ 100 := by
  unfold JS.confidenceRatio
  cases dsec with
  | none => simp
  | some ds =>
    simp only
    split_ifs
    · simp
    · have h0 : (0 : K) ≤ max 0 (min 1 (1 - dmin / (dmin + ds + EPSILON))) := le_max_left _ _
      have h1 : max 0 (min 1 (1 - dmin / (dmin + ds + EPSILON))) ≤ (1 : K) :=
        max_le (by norm_num) (min_le_left _ _)
      constructor
      · have : jsRound (0 : K) ≤ jsRound (max 0 (min 1 (1 - dmin / (dmin + ds + EPSILON))) * 100) :=
          jsRound_mono (by nlinarith)
        have e : jsRound (0 : K) = 0 := by rw [jsRound_eq_iff]; norm_num
        rw [e] at this
        exact this
      · have : jsRound (max 0 (min 1 (1 - dmin / (dmin + ds + EPSILON))) * 100) ≤ jsRound (100 : K) :=
          jsRound_mono (by nlinarith)
        have e : jsRound (100 : K) = 100 := by rw [jsRound_eq_iff]; norm_num
        rw [e] at this
        exact this

/-- The exp confidence is between 0 and 100 when the scale is not negative and
`mexp` maps the non-positive numbers into the unit interval. -/
theorem confidenceExp_bounds [FloorRing K] (mexp : K → K)
    (hexp : ∀ x : K, x ≤ 0 → 0 ≤ mexp x ∧ mexp x ≤ 1) (d : K) (hd : 0 ≤ d)
    (scale : Option K) (hscale : ∀ s, scale = some s → 0 ≤ s) :
    0 ≤ JS.confidenceExp mexp d scale ∧ JS.confidenceExp mexp d scale ≤ 100 := by
  have hpos : 0 < jsOr scale (1 : K) := by
    cases scale with
    | none => simp [jsOr]
    | some s =>
      have hs := hscale s rfl
      unfold jsOr
      simp only
      split_ifs with h0
      · norm_num
      · exact lt_of_le_of_ne hs (Ne.symm h0)
  have harg : -(d / jsOr scale 1) ≤ 0 := by
    rw [neg_nonpos]
    exact div_nonneg hd (le_of_lt hpos)
  obtain ⟨h0, h1⟩ := hexp _ harg
  unfold JS.confidenceExp
  constructor
  · have : jsRound (0 : K) ≤ jsRound (mexp (-(d / jsOr scale 1)) * 100) :=
      jsRound_mono (by nlinarith)
    have e : jsRound (0 : K) = 0 := by rw [jsRound_eq_iff]; norm_num
    rw [e] at this
    exact this
  · have : jsRound (mexp (-(d / jsOr scale 1)) * 100) ≤ jsRound (100 : K) :=
      jsRound_mono (by nlinarith)
    have e : jsRound (100 : K) = 100 := by rw [jsRound_eq_iff]; norm_num
    rw [e] at this
    exact this

/-! ## Rounding to a double -/

theorem int_log_two_eq [FloorRing K] (x : K) (z : Int) (hlo : (2 : K) ^ z ≤ x)
    (hhi : x < (2 : K) ^ (z + 1)) : Int.log 2 x = z := by
  have hpos : 0 < x := lt_of_lt_of_le (zpow_pos (by norm_num) z) hlo
  have h1 : (z : Int) ≤ Int.log 2 x :=
    (Int.zpow_le_iff_le_log (by norm_num) hpos).mp (by exact_mod_cast hlo)
  have h2 : Int.log 2 x < z + 1 :=
    (Int.lt_zpow_iff_log_lt (by norm_num) hpos).mp (by exact_mod_cast hhi)
  omega

/-- The difference `1 - 2` is a double. -/
theorem toDouble_one_sub_two : toDouble (1 - 2 : ℚ) = -1 := by
  have hl : Int.log 2 |(1 - 2 : ℚ)| = 0 := by
    apply int_log_two_eq <;> norm_num
  unfold toDouble
  simp only [hl]
  norm_num [roundHalfEven]

/-- The difference `1 - 2^-60` needs 60 significant bits; it rounds to 1. -/
theorem toDouble_one_sub_tiny : toDouble (1 - 1 / 2 ^ 60 : ℚ) = 1 := by
  have hl : Int.log 2 |(1 - 1 / 2 ^ 60 : ℚ)| = -1 := by
    apply int_log_two_eq <;> norm_num [abs_of_nonneg]
  unfold toDouble
  simp only [hl]
  norm_num [roundHalfEven]

/-- The difference `10 - 0` is a double. -/
theorem toDouble_ten_sub_zero : toDouble (10 - 0 : ℚ) = 10 := by
  have hl : Int.log 2 |(10 - 0 : ℚ)| = 3 := by
    apply int_log_two_eq <;> norm_num
  unfold toDouble
  simp only [hl]
  norm_num [roundHalfEven]

/-- The difference `10 - 20` is a double. -/
theorem toDouble_ten_sub_twenty : toDouble (10 - 20 : ℚ) = -10 := by
  have hl : Int.log 2 |(10 - 20 : ℚ)| = 3 := by
    apply int_log_two_eq <;> norm_num
  unfold toDouble
  simp only [hl]
  norm_num [roundHalfEven]

/-- The array `dists` of the query 1 and the references `[2, 2^-60]` in double
arithmetic: both distances are 1. -/
theorem distsOf_toDouble_tie :
    distsOf toDouble (1 : ℚ) [2, 1 / 2 ^ 60] = [⟨2, 1⟩, ⟨1 / 2 ^ 60, 1⟩] := by
  show [(⟨2, |toDouble (1 - 2)|⟩ : Dist ℚ), ⟨1 / 2 ^ 60, |toDouble (1 - 1 / 2 ^ 60)|⟩] = _
  rw [toDouble_one_sub_two, toDouble_one_sub_tiny]
  norm_num

/-! ## The claims -/

/-! ### Claim C1 -/

/-- Claim C1 fails as stated: in double arithmetic, on the query 1 and the
references `[2, 2^-60]`, the two differences round to the distance 1 and the
stable sort keeps 2 first, so `compute` and `computeClosest` return the closest
value 2 at the distance 1, although `2^-60` is strictly nearer to the query. -/
theorem closest_not_nearest_in_doubles :
    JS.computeWith toDouble (fun x : ℚ => x) (fun _ => 0) 1 [2, 1 / 2 ^ 60]
        ⟨"closest", "ratio", none⟩
      = some { closest := some 2, distance := some 1, confidence := some 50,
               dv := some "0000-LL-0000" } ∧
    JavaScripts.computeClosestWith toDouble (1 : ℚ) [2, 1 / 2 ^ 60]
      = some { closest := some 2, distance := some 1, confidence := some 50,
               bestIndex := some 0 } ∧
    |(1 : ℚ) - 1 / 2 ^ 60| < |1 - 2| := by
  refine ⟨?_, ?_, ?_⟩
  · simp only [JS.computeWith, distsOf_toDouble_tie]
    norm_num [jsSort, insertBy, byDist, JS.confidenceRatio, jsRound, EPSILON,
      JS.generateDataVerifiedId, JS.randNum, JS.randLetters, JS.letterAt, JS.LETTERS,
      List.range, List.range.loop]
    decide
  · simp only [JavaScripts.computeClosestWith, distsOf_toDouble_tie]
    norm_num [jsSort, insertBy, byDist, jsRound, EPSILON, jsIndexOf]
  · norm_num [abs_of_nonneg]

/-- Claim C1, amended: for every query value and every non-empty reference list,
whatever the rounding `fl` of the differences, the `closest` returned by
`compute` (modes closest and range, either formula) and by `computeClosest` is
one entry `c` of the list, `distance` is its computed distance
`Math.abs(value - c)`, no entry of the list has a smaller computed distance, and
`c` is the first entry at that least computed distance: every entry before it in
the input order has a strictly greater one. -/
theorem closest_is_first_nearest [FloorRing K] (fl : K → K) (mexp : K → K) (rand : Nat → K)
    (value : K) (refs : List K) (options : JS.Options K) (hrefs : refs ≠ [])
    (hmode : options.mode = "closest" ∨ options.mode = "range") :
    ∃ c res res2,
      JS.computeWith fl mexp rand value refs options = some res ∧
      JavaScripts.computeClosestWith fl value refs = some res2 ∧
      res.closest = some c ∧ res.distance = some |fl (value - c)| ∧
      res2.closest = some c ∧ res2.distance = some |fl (value - c)| ∧
      c ∈ refs ∧ (∀ r ∈ refs, |fl (value - c)| ≤ |fl (value - r)|) ∧
      ∃ pre post, refs = pre ++ c :: post ∧
        ∀ r ∈ pre, |fl (value - c)| < |fl (value - r)| := by
  obtain ⟨pre, c, post, rest, hsplit, hsort, hpre, hpost⟩ :=
    jsSort_dists_head fl value refs hrefs
  have hmem : c ∈ refs := by rw [hsplit]; simp
  have hmin : ∀ r ∈ refs, |fl (value - c)| ≤ |fl (value - r)| := by
    intro r hr
    rw [hsplit] at hr
    rcases List.mem_append.mp hr with hr | hr
    · exact le_of_lt (hpre r hr)
    · rcases List.mem_cons.mp hr with rfl | hr
      · exact le_refl _
      · exact hpost r hr
  cases refs with
  | nil => exact absurd rfl hrefs
  | cons r0 rs =>
    have h2 : ∃ res2, JavaScripts.computeClosestWith fl value (r0 :: rs) = some res2 ∧
        res2.closest = some c ∧ res2.distance = some |fl (value - c)| := by
      simp only [JavaScripts.computeClosestWith, hsort]
      exact ⟨_, rfl, rfl, rfl⟩
    have h1 : ∃ res, JS.computeWith fl mexp rand value (r0 :: rs) options = some res ∧
        res.closest = some c ∧ res.distance = some |fl (value - c)| := by
      rcases hmode with hm | hm
      · simp only [JS.computeWith, hsort, hm, if_true]
        exact ⟨_, rfl, rfl, rfl⟩
      · simp only [JS.computeWith, hsort, hm]
        exact ⟨_, rfl, rfl, rfl⟩
    obtain ⟨res, e1, e2, e3⟩ := h1
    obtain ⟨res2, f1, f2, f3⟩ := h2
    exact ⟨c, res, res2, e1, f1, e2, e3, f2, f3, hmem, hmin, pre, post, hsplit, hpre⟩

/-- The example of claim C1 in double arithmetic: the query 10 with the
references `[0, 20]` returns 0 at distance 10. -/
theorem closest_is_first_nearest_witness :
    ∃ res res2,
      JS.computeWith toDouble (fun x : ℚ => x) (fun _ => 0) 10 [0, 20]
        ⟨"range", "ratio", none⟩ = some res ∧
      JavaScripts.computeClosestWith toDouble (10 : ℚ) [0, 20] = some res2 ∧
      res.closest = some 0 ∧ res.distance = some 10 ∧
      res2.closest = some 0 ∧ res2.distance = some 10 := by
  obtain ⟨c, res, res2, h1, h2, h3, h4, h5, h6, hmem, -, pre, post, hsplit, hpre⟩ :=
    closest_is_first_nearest toDouble (fun x : ℚ => x) (fun _ => 0) 10 [0, 20]
      ⟨"range", "ratio", none⟩ (by simp) (Or.inr rfl)
  have hc : c = 0 := by
    rcases List.mem_cons.mp hmem with h | h
    · exact h
    · have h20 : c = 20 := by simpa using h
      subst h20
      cases pre with
      | nil => simp at hsplit
      | cons p ps =>
        have hp : p = 0 := by
          have := (List.cons.inj hsplit).1
          exact this.symm
        have hlt := hpre p (by simp)
        rw [hp, toDouble_ten_sub_twenty, toDouble_ten_sub_zero] at hlt
        norm_num at hlt
  subst hc
  refine ⟨res, res2, h1, h2, h3, ?_, h5, ?_⟩
  · rw [h4, toDouble_ten_sub_zero]; norm_num
  · rw [h6, toDouble_ten_sub_zero]; norm_num

/-! ### Claim C2 -/

/-- Claim C2, at the failing input: with the exp formula and the scale `-1`, which
`handleSend` passes on unchanged, `compute` on the query 1 and the references
`[0]` returns the confidence 272 (`Math.exp` being the real exponential), which
is above 100. -/
theorem compute_exp_negative_scale (rand : Nat → ℝ) :
    JS.compute Real.exp rand 1 [0] (JS.handleSendOpts "closest" "exp" (some (-1)))
      = some { closest := some 0, distance := some 1, confidence := some 272,
               dv := some (JS.generateDataVerifiedId rand) } := by
  have h : JS.confidenceExp Real.exp (1 : ℝ) (some (-1)) = 272 := by
    unfold JS.confidenceExp
    rw [jsRound_eq_iff]
    have e : (-((1 : ℝ) / jsOr (some (-1)) 1)) = 1 := by norm_num [jsOr]
    rw [e]
    obtain ⟨h1, h2⟩ := exp_one_bounds
    constructor
    · norm_num at h1 ⊢; linarith
    · norm_num at h2 ⊢; linarith
  norm_num [JS.compute, JS.computeWith, jsSort, insertBy, distsOf, JS.handleSendOpts, jsOr] at h ⊢
  exact h

/-! ### Claim C3 -/

/-- Claim C3, at two failing inputs: `computeClosest` returns the confidence 100
when the best and the runner-up distance are both zero (query 5, references
`[5, 5]`), and 67 when both are `Number.EPSILON` (query `2^-52`, references
`[0, 2^-51]`); the claim says 50 in both cases. -/
theorem computeClosest_equal_distances :
    JavaScripts.computeClosest (5 : ℚ) [5, 5]
      = some { closest := some 5, distance := some 0, confidence := some 100,
               bestIndex := some 0 } ∧
    JavaScripts.computeClosest (1 / 2 ^ 52 : ℚ) [0, 1 / 2 ^ 51]
      = some { closest := some 0, distance := some (1 / 2 ^ 52), confidence := some 67,
               bestIndex := some 0 } := by
  constructor
  · norm_num [JavaScripts.computeClosest, JavaScripts.computeClosestWith, jsSort, insertBy, distsOf, byDist, jsRound, EPSILON,
      jsIndexOf]
  · norm_num [JavaScripts.computeClosest, JavaScripts.computeClosestWith, jsSort, insertBy, distsOf, byDist, jsRound, EPSILON,
      jsIndexOf, abs_of_nonneg, abs_of_nonpos]

/-! ### Claim C4 -/

/-- Claim C4 fails as stated: at the distance 10, `confidenceExp` with a missing
scale or with the scale zero returns `round(100 * exp(-10))`, and with the scale
`-10`, which `handleSend` passes on unchanged, it returns `round(100 * exp(1))`;
none of the three is `round(100 * exp(-10 / 10))`. -/
theorem exp_scale_not_ten :
    JS.confidenceExp Real.exp (10 : ℝ) none ≠ jsRound (Real.exp (-(10 / 10)) * 100) ∧
    JS.confidenceExp Real.exp (10 : ℝ) (some 0) ≠ jsRound (Real.exp (-(10 / 10)) * 100) ∧
    JS.confidenceExp Real.exp (10 : ℝ) (JS.handleSendOpts "closest" "exp" (some (-10))).scale
      ≠ jsRound (Real.exp (-(10 / 10)) * 100) := by
  have hr : jsRound (Real.exp (-(10 / 10)) * 100) = 37 := by
    rw [jsRound_eq_iff]
    have e : (-((10 : ℝ) / 10)) = -1 := by norm_num
    rw [e]
    obtain ⟨h1, h2⟩ := exp_neg_one_bounds
    constructor
    · norm_num at h1 ⊢; linarith
    · norm_num at h2 ⊢; linarith
  have h0 : jsRound (Real.exp (-10) * 100) = 0 := by
    rw [jsRound_eq_iff]
    have h1 := exp_neg_ten_lt
    have h2 := Real.exp_pos (-10)
    constructor
    · norm_num; linarith
    · norm_num at h1 ⊢; linarith
  have hneg : jsRound (Real.exp 1 * 100) = 272 := by
    rw [jsRound_eq_iff]
    obtain ⟨h1, h2⟩ := exp_one_bounds
    constructor
    · norm_num at h1 ⊢; linarith
    · norm_num at h2 ⊢; linarith
  rw [hr]
  refine ⟨?_, ?_, ?_⟩
  · have : JS.confidenceExp Real.exp (10 : ℝ) none = 0 := by
      simpa [JS.confidenceExp, jsOr] using h0
    rw [this]; decide
  · have : JS.confidenceExp Real.exp (10 : ℝ) (some 0) = 0 := by
      simpa [JS.confidenceExp, jsOr] using h0
    rw [this]; decide
  · have : JS.confidenceExp Real.exp (10 : ℝ)
        (JS.handleSendOpts "closest" "exp" (some (-10))).scale = 272 := by
      have e : (-((10 : ℝ) / jsOr (some (jsOr (some (-10)) 10)) 1)) = 1 := by
        norm_num [jsOr]
      simp only [JS.confidenceExp, JS.handleSendOpts, e]
      exact hneg
    rw [this]; decide

/-- Claim C4, amended: when the scale field is missing or zero, `handleSend`
passes the scale 10 to `compute`, so for every distance `d` the exp confidence is
`round(100 * exp(-d / 10))`, and `compute` on a non-empty reference list returns
that value at the least distance, in every mode; `confidenceExp` called with a
missing or zero scale itself divides by 1. -/
theorem exp_scale_missing_or_zero [FloorRing K] (mexp : K → K) (rand : Nat → K) (value : K)
    (r0 : K) (rs : List K) (mode : String) (d : K) (scaleField : Option K)
    (hscale : scaleField = none ∨ scaleField = some 0)
    (hmode : mode = "closest" ∨ mode = "rank" ∨ mode = "range") :
    (JS.handleSendOpts mode "exp" scaleField).scale = some 10 ∧
    JS.confidenceExp mexp d (JS.handleSendOpts mode "exp" scaleField).scale
      = jsRound (mexp (-(d / 10)) * 100) ∧
    JS.confidenceExp mexp d scaleField = jsRound (mexp (-(d / 1)) * 100) ∧
    ∃ c res, c ∈ r0 :: rs ∧ (∀ r ∈ r0 :: rs, |value - c| ≤ |value - r|) ∧
      JS.compute mexp rand value (r0 :: rs) (JS.handleSendOpts mode "exp" scaleField)
        = some res ∧
      res.confidence = some (jsRound (mexp (-(|value - c| / 10)) * 100)) := by
  have hten : jsOr scaleField (10 : K) = 10 := by
    rcases hscale with h | h <;> simp [h, jsOr]
  have hone : jsOr scaleField (1 : K) = 1 := by
    rcases hscale with h | h <;> simp [h, jsOr]
  have hkeep : jsOr (some (10 : K)) 1 = 10 := by
    simp [jsOr]
  have hce : ∀ x : K, JS.confidenceExp mexp x (some 10) = jsRound (mexp (-(x / 10)) * 100) := by
    intro x
    simp only [JS.confidenceExp, hkeep]
  have hopts : (JS.handleSendOpts mode "exp" scaleField).scale = some 10 := by
    simp only [JS.handleSendOpts, hten]
  refine ⟨hopts, ?_, ?_, ?_⟩
  · rw [hopts, hce]
  · simp only [JS.confidenceExp, hone]
  · obtain ⟨c, res, h1, h2, h3, h4⟩ := compute_exp_confidence mexp rand value r0 rs
      (JS.handleSendOpts mode "exp" scaleField) rfl hmode
    rw [hopts, hce] at h4
    exact ⟨c, res, h1, h2, h3, h4⟩

/-- Claim C4, amended, for the real exponential, a zero scale field, the query 2
and the references `[0, 1, 20]`. -/
theorem exp_scale_missing_or_zero_witness :
    (JS.handleSendOpts "closest" "exp" (some (0 : ℝ))).scale = some 10 ∧
    JS.confidenceExp Real.exp (3 : ℝ) (JS.handleSendOpts "closest" "exp" (some 0)).scale
      = jsRound (Real.exp (-(3 / 10)) * 100) ∧
    JS.confidenceExp Real.exp (3 : ℝ) (some 0) = jsRound (Real.exp (-(3 / 1)) * 100) ∧
    ∃ c res, c ∈ [(0 : ℝ), 1, 20] ∧ (∀ r ∈ [(0 : ℝ), 1, 20], |2 - c| ≤ |2 - r|) ∧
      JS.compute Real.exp (fun _ => 0) 2 [0, 1, 20] (JS.handleSendOpts "closest" "exp" (some 0))
        = some res ∧
      res.confidence = some (jsRound (Real.exp (-(|2 - c| / 10)) * 100)) :=
  exp_scale_missing_or_zero Real.exp (fun _ => 0) 2 0 [1, 20] "closest" 3 (some 0)
    (Or.inr rfl) (Or.inl rfl)

/-! ### Claim C5 -/

/-- Claim C5 fails as stated: with the scale 10 the exp confidence at the distance
1/100 is 100, the same as at the distance 0, so it is neither strictly smaller
nor is 100 reached at the distance 0 only. -/
theorem confidenceExp_not_strict :
    JS.confidenceExp Real.exp (1 / 100 : ℝ) (some 10) = 100 ∧
    ¬ (JS.confidenceExp Real.exp (1 / 100 : ℝ) (some 10)
        < JS.confidenceExp Real.exp (0 : ℝ) (some 10)) := by
  have h1 : JS.confidenceExp Real.exp (1 / 100 : ℝ) (some 10) = 100 := by
    unfold JS.confidenceExp
    rw [jsRound_eq_iff]
    have e : (-((1 / 100 : ℝ) / jsOr (some 10) 1)) = -(1 / 1000) := by norm_num [jsOr]
    rw [e]
    have hlo := Real.add_one_le_exp (-(1 / 1000 : ℝ))
    have hhi : Real.exp (-(1 / 1000 : ℝ)) ≤ 1 := Real.exp_le_one_iff.mpr (by norm_num)
    constructor
    · norm_num at hlo ⊢; linarith
    · norm_num; linarith
  have h2 : JS.confidenceExp Real.exp (0 : ℝ) (some 10) = 100 := by
    unfold JS.confidenceExp
    rw [jsRound_eq_iff]
    norm_num
  refine ⟨h1, ?_⟩
  rw [h1, h2]
  decide

/-- Claim C5, amended: for a monotone `Math.exp` with `exp(0) = 1` and a fixed
positive scale, the exp confidence does not increase with the distance, and it
is 100 at the distance 0. -/
theorem confidenceExp_antitone [FloorRing K] (mexp : K → K) (hmono : Monotone mexp)
    (h0 : mexp 0 = 1) (s : K) (hs : 0 < s) (d1 d2 : K) (h : d1 ≤ d2) :
    JS.confidenceExp mexp d2 (some s) ≤ JS.confidenceExp mexp d1 (some s) ∧
      JS.confidenceExp mexp 0 (some s) = 100 := by
  have hor : jsOr (some s) 1 = s := by simp [jsOr, ne_of_gt hs]
  constructor
  · unfold JS.confidenceExp
    rw [hor]
    apply jsRound_mono
    apply mul_le_mul_of_nonneg_right _ (by norm_num)
    apply hmono
    rw [neg_le_neg_iff]
    exact div_le_div_of_nonneg_right h (le_of_lt hs)
  · unfold JS.confidenceExp
    rw [jsRound_eq_iff]
    simp only [zero_div, neg_zero, h0]
    norm_num

/-- Claim C5, amended, for the real exponential, the scale 10 and the distances
0 and 1. -/
theorem confidenceExp_antitone_witness :
    JS.confidenceExp Real.exp (1 : ℝ) (some 10) ≤ JS.confidenceExp Real.exp (0 : ℝ) (some 10) ∧
      JS.confidenceExp Real.exp (0 : ℝ) (some 10) = 100 :=
  confidenceExp_antitone Real.exp Real.exp_monotone Real.exp_zero 10 (by norm_num) 0 1
    (by norm_num)

/-! ### Claim C6 -/

/-- Claim C6 fails as stated: on the same query, references and options, two
random sources make `compute` return two different results, which differ in
the property `dv`. -/
theorem compute_depends_on_random :
    JS.compute (fun x : ℚ => x) (fun _ => 0) 2 [0, 1, 20] ⟨"closest", "ratio", none⟩
      = some { closest := some 1, distance := some 1, confidence := some 67,
               dv := some "0000-LL-0000" } ∧
    JS.compute (fun x : ℚ => x) (fun _ => 1 / 2) 2 [0, 1, 20] ⟨"closest", "ratio", none⟩
      = some { closest := some 1, distance := some 1, confidence := some 67,
               dv := some "5555-MM-5555" } ∧
    JS.compute (fun x : ℚ => x) (fun _ => 0) 2 [0, 1, 20] ⟨"closest", "ratio", none⟩
      ≠ JS.compute (fun x : ℚ => x) (fun _ => 1 / 2) 2 [0, 1, 20]
          ⟨"closest", "ratio", none⟩ := by
  have e1 : JS.compute (fun x : ℚ => x) (fun _ => 0) 2 [0, 1, 20] ⟨"closest", "ratio", none⟩
      = some { closest := some 1, distance := some 1, confidence := some 67,
               dv := some "0000-LL-0000" } := by
    norm_num [JS.compute, JS.computeWith, jsSort, insertBy, distsOf, byDist, JS.confidenceRatio, jsRound,
      EPSILON, JS.generateDataVerifiedId, JS.randNum, JS.randLetters, JS.letterAt, JS.LETTERS,
      List.range, List.range.loop]
    decide
  have e2 : JS.compute (fun x : ℚ => x) (fun _ => 1 / 2) 2 [0, 1, 20]
      ⟨"closest", "ratio", none⟩
      = some { closest := some 1, distance := some 1, confidence := some 67,
               dv := some "5555-MM-5555" } := by
    norm_num [JS.compute, JS.computeWith, jsSort, insertBy, distsOf, byDist, JS.confidenceRatio, jsRound,
      EPSILON, JS.generateDataVerifiedId, JS.randNum, JS.randLetters, JS.letterAt, JS.LETTERS,
      List.range, List.range.loop]
    decide
  refine ⟨e1, e2, ?_⟩
  rw [e1, e2]
  intro h
  have hdv := congrArg (fun r => r.bind fun x => x.dv) h
  simp at hdv

/-- Claim C6, amended: the random source reaches the result of `compute` through
the property `dv` only; once `dv` is blanked, two evaluations on the same
arguments return the same result whatever the two random sources produce. -/
theorem compute_random_only_in_dv [FloorRing K] (mexp : K → K) (rand1 rand2 : Nat → K)
    (value : K) (refs : List K) (options : JS.Options K) :
    (JS.compute mexp rand1 value refs options).map (fun r => { r with dv := none })
      = (JS.compute mexp rand2 value refs options).map (fun r => { r with dv := none }) := by
  cases refs with
  | nil => rfl
  | cons r0 rs =>
    obtain ⟨best, rest, hsort⟩ := jsSort_ne_nil byDist
      (⟨r0, |value - r0|⟩ : Dist K) (distsOf id value rs)
    have hsort2 : jsSort byDist (distsOf id value (r0 :: rs)) = best :: rest := hsort
    simp only [JS.compute, JS.computeWith, hsort2]
    split_ifs <;> rfl

/-! ### Claim C7 -/

/-- Claim C7: with the ratio formula, in every mode, when at least two entries of
the reference list are at distance zero from the query, `compute` returns the
confidence 50. -/
theorem ratio_confidence_two_zero [FloorRing K] (mexp : K → K) (rand : Nat → K) (value : K)
    (refs : List K) (options : JS.Options K) (hconf : options.conf = "ratio")
    (hmode : options.mode = "closest" ∨ options.mode = "rank" ∨ options.mode = "range")
    (hzero : 2 ≤ refs.countP (fun r => decide (|value - r| = 0))) :
    ∃ res, JS.compute mexp rand value refs options = some res ∧
      res.confidence = some 50 := by
  obtain ⟨a, b, rest, hsort, ha, hb⟩ := jsSort_two_zero id value refs hzero
  cases refs with
  | nil => simp at hzero
  | cons r0 rs =>
    have hne : ¬ options.conf = "exp" := by rw [hconf]; decide
    have hconfv : JS.confidenceRatio a.dist
        ((b :: rest).head?.map fun s => s.dist) = 50 := by
      simp [JS.confidenceRatio, ha, hb]
    rcases hmode with hm | hm | hm
    · simp only [JS.compute, JS.computeWith, hsort, hm, if_true, if_neg hne, hconfv]
      exact ⟨_, rfl, rfl⟩
    · simp only [JS.compute, JS.computeWith, hsort, hm, if_neg hne, hconfv]
      exact ⟨_, rfl, rfl⟩
    · simp only [JS.compute, JS.computeWith, hsort, hm, if_neg hne, hconfv]
      exact ⟨_, rfl, rfl⟩

/-- Claim C7 on the query 5 and the references `[5, 7, 5]`. -/
theorem ratio_confidence_two_zero_witness :
    ∃ res, JS.compute (fun x : ℚ => x) (fun _ => 0) 5 [5, 7, 5] ⟨"closest", "ratio", none⟩
        = some res ∧ res.confidence = some 50 :=
  ratio_confidence_two_zero (fun x : ℚ => x) (fun _ => 0) 5 [5, 7, 5]
    ⟨"closest", "ratio", none⟩ rfl (Or.inl rfl) (by simp [List.countP_cons])

/-! ### Claim C8 -/

/-- Claim C8 fails as stated: in double arithmetic, on the query 1 and the
references `[2, 2^-60]`, rank mode returns the entries `(2, 1)` and
`(2^-60, 1)` in this order; the distance of the second entry is not
`|1 - 2^-60|`, and the reference listed first is strictly farther from the
query than the second. -/
theorem rank_not_by_exact_distance :
    JS.computeWith toDouble (fun x : ℚ => x) (fun _ => 0) 1 [2, 1 / 2 ^ 60]
        ⟨"rank", "ratio", none⟩
      = some { rank := some [⟨2, 1⟩, ⟨1 / 2 ^ 60, 1⟩], confidence := some 50,
               dv := some "0000-LL-0000" } ∧
    |(1 : ℚ) - 1 / 2 ^ 60| ≠ 1 ∧
    |(1 : ℚ) - 1 / 2 ^ 60| < |1 - 2| := by
  refine ⟨?_, ?_, ?_⟩
  · have hmode : ¬ ("rank" = "closest") := by decide
    have hconf : ¬ ("ratio" = "exp") := by decide
    simp only [JS.computeWith, distsOf_toDouble_tie]
    norm_num [hmode, hconf, jsSort, insertBy, byDist, JS.confidenceRatio, jsRound, EPSILON,
      JS.generateDataVerifiedId, JS.randNum, JS.randLetters, JS.letterAt, JS.LETTERS,
      List.range, List.range.loop]
    decide
  · norm_num [abs_of_nonneg]
  · norm_num [abs_of_nonneg]

/-- Claim C8, amended: in rank mode, for a non-empty reference list, whatever the
rounding `fl` of the differences, the `rank` returned by `compute` is a
permutation of the entries `(v = r, distance = Math.abs(value - r))` of the
input list, the distance being the computed one, its distances are in ascending
order, and for every distance the entries at that distance come in their input
order. -/
theorem rank_is_stable_sort [FloorRing K] (fl : K → K) (mexp : K → K) (rand : Nat → K)
    (value : K) (refs : List K) (options : JS.Options K) (hrefs : refs ≠ [])
    (hmode : options.mode = "rank") :
    ∃ res rank,
      JS.computeWith fl mexp rand value refs options = some res ∧
      res.rank = some rank ∧
      rank.Perm (refs.map fun r => (⟨r, |fl (value - r)|⟩ : JS.RankEntry K)) ∧
      rank.Pairwise (fun a b => a.distance ≤ b.distance) ∧
      ∀ d : K, rank.filter (fun e => decide (e.distance = d))
        = (refs.map fun r => (⟨r, |fl (value - r)|⟩ : JS.RankEntry K)).filter
            (fun e => decide (e.distance = d)) := by
  cases refs with
  | nil => exact absurd rfl hrefs
  | cons r0 rs =>
    obtain ⟨best, rest, hsort⟩ := jsSort_ne_nil byDist
      (⟨r0, |fl (value - r0)|⟩ : Dist K) (distsOf fl value rs)
    have hsort2 : jsSort byDist (distsOf fl value (r0 :: rs)) = best :: rest := hsort
    have hmap : ((r0 :: rs).map fun r => (⟨r, |fl (value - r)|⟩ : JS.RankEntry K))
        = (distsOf fl value (r0 :: rs)).map fun d => ⟨d.ref, d.dist⟩ := by
      simp [distsOf]
    have hc : ∃ res, JS.computeWith fl mexp rand value (r0 :: rs) options = some res ∧
        res.rank = some ((jsSort byDist (distsOf fl value (r0 :: rs))).map
          fun d => ⟨d.ref, d.dist⟩) := by
      simp only [JS.computeWith, hsort2, hmode]
      exact ⟨_, rfl, rfl⟩
    obtain ⟨res, h1, h2⟩ := hc
    refine ⟨res, _, h1, h2, ?_, ?_, ?_⟩
    · rw [hmap]
      exact (jsSort_perm byDist _).map _
    · rw [List.pairwise_map]
      exact jsSort_pairwise _
    · intro d
      rw [hmap, List.filter_map, List.filter_map]
      exact congrArg _ (jsSort_filter d _)

/-- Claim C8, amended, in double arithmetic on the query 2 and the references
`[3, 1, 0]`. -/
theorem rank_is_stable_sort_witness :
    ([3, 1, 0] : List ℚ) ≠ [] ∧
    ∃ res rank,
      JS.computeWith toDouble (fun x : ℚ => x) (fun _ => 0) 2 [3, 1, 0]
        ⟨"rank", "ratio", none⟩ = some res ∧
      res.rank = some rank ∧
      rank.Perm (([3, 1, 0] : List ℚ).map
        fun r => (⟨r, |toDouble (2 - r)|⟩ : JS.RankEntry ℚ)) ∧
      rank.Pairwise (fun a b => a.distance ≤ b.distance) ∧
      ∀ d : ℚ, rank.filter (fun e => decide (e.distance = d))
        = (([3, 1, 0] : List ℚ).map
            fun r => (⟨r, |toDouble (2 - r)|⟩ : JS.RankEntry ℚ)).filter
            (fun e => decide (e.distance = d)) :=
  ⟨by simp, rank_is_stable_sort toDouble (fun x : ℚ => x) (fun _ => 0) 2 [3, 1, 0]
    ⟨"rank", "ratio", none⟩ (by simp) rfl⟩

/-! ### Claim C9 -/

/-- Claim C9: in range mode, for a non-empty reference list, the region returned
by `compute` is made of two entries `mn` and `mx` of the list with
`mn ≤ r ≤ mx` for every entry `r`, and it is the same for every reordering of
the list, every query value and every other argument. -/
theorem range_region_is_min_max [FloorRing K] (mexp : K → K) (rand : Nat → K) (value : K)
    (refs : List K) (options : JS.Options K) (hrefs : refs ≠ [])
    (hmode : options.mode = "range") :
    ∃ res mn mx,
      JS.compute mexp rand value refs options = some res ∧
      res.region = some ⟨mn, mx⟩ ∧
      mn ∈ refs ∧ mx ∈ refs ∧ (∀ r ∈ refs, mn ≤ r ∧ r ≤ mx) ∧
      ∀ (mexp2 : K → K) (rand2 : Nat → K) (value2 : K) (refs2 : List K)
        (options2 : JS.Options K), refs2.Perm refs → options2.mode = "range" →
        ∃ res2, JS.compute mexp2 rand2 value2 refs2 options2 = some res2 ∧
          res2.region = some ⟨mn, mx⟩ := by
  cases refs with
  | nil => exact absurd rfl hrefs
  | cons r0 rs =>
    obtain ⟨res, h1, h2⟩ := compute_range_region mexp rand value r0 rs options hmode
    refine ⟨res, mathMin r0 rs, mathMax r0 rs, h1, h2, mathMin_mem r0 rs, mathMax_mem r0 rs,
      ?_, ?_⟩
    · intro r hr
      rcases List.mem_cons.mp hr with rfl | hr
      · exact ⟨(mathMin_le _ rs).1, (le_mathMax _ rs).1⟩
      · exact ⟨(mathMin_le r0 rs).2 r hr, (le_mathMax r0 rs).2 r hr⟩
    · intro mexp2 rand2 value2 refs2 options2 hperm hmode2
      cases refs2 with
      | nil => exact absurd hperm.length_eq (by simp)
      | cons s0 ss =>
        obtain ⟨res2, g1, g2⟩ :=
          compute_range_region mexp2 rand2 value2 s0 ss options2 hmode2
        refine ⟨res2, g1, ?_⟩
        rw [g2, mathMin_congr s0 ss r0 rs (fun x => hperm.mem_iff),
          mathMax_congr s0 ss r0 rs (fun x => hperm.mem_iff)]

/-- The example of claim C9: the references `[0, 20]` give the bounds 0 and 20. -/
theorem range_region_is_min_max_witness :
    ∃ res,
      JS.compute (fun x : ℚ => x) (fun _ => 0) 10 [0, 20] ⟨"range", "ratio", none⟩ = some res ∧
      res.region = some ⟨0, 20⟩ := by
  obtain ⟨res, mn, mx, h1, h2, hmn, hmx, hall, -⟩ :=
    range_region_is_min_max (fun x : ℚ => x) (fun _ => 0) 10 [0, 20]
      ⟨"range", "ratio", none⟩ (by simp) rfl
  have e1 : mn = 0 := le_antisymm (hall 0 (by simp)).1 (by
    rcases List.mem_cons.mp hmn with h | h
    · exact le_of_eq h.symm
    · have : mn = 20 := by simpa using h
      have := (hall 0 (by simp)).1
      linarith)
  have e2 : mx = 20 := le_antisymm (by
    rcases List.mem_cons.mp hmx with h | h
    · have := (hall 20 (by simp)).2
      linarith
    · have : mx = 20 := by simpa using h
      exact le_of_eq this) (hall 20 (by simp)).2
  subst e1 e2
  exact ⟨res, h1, h2⟩

/-! ### Claim C10 -/

/-- Claim C10: on the empty reference list, for every query value and all options,
`compute` and `computeClosest` return the error object, which has no `closest`,
`distance` or `confidence` property. -/
theorem empty_refs_error [FloorRing K] (mexp : K → K) (rand : Nat → K) (value : K)
    (options : JS.Options K) :
    JS.compute mexp rand value [] options
        = some { error := some "No reference numbers provided.", closest := none,
                 distance := none, rank := none, region := none, confidence := none,
                 dv := none } ∧
      JavaScripts.computeClosest value []
        = some { error := some "No valid reference numbers provided.", closest := none,
                 distance := none, confidence := none, bestIndex := none } :=
  ⟨rfl, rfl⟩

end TinyNumberBot
